import Mathlib

/-!
Verification development for the college-basketball-scores scraping pipeline.

The Python sources embedded here (shallowly, over structured page data) are:
  * final_scores_scraper_auto.py : safe_get, scrape_day, append_to_master,
    get_existing_dates, run_auto_scrape
  * rebuild_scores_25yrs.py      : ymd, is_in_season, parse_day, scrape_range
  * rescrape_missed_days.py      : find_failed_days

Modelling conventions, applied uniformly:
  * HTML documents are represented by structures holding exactly the pieces the
    code selects out of the DOM (element texts, hrefs, CSS classes); a field is
    an Option when the corresponding selector can fail to match.
  * Python str primitives (int(), lower(), strip(), split(), sorted()) are
    re-implemented structurally over the character list of the string; a parse
    failure that the code catches with try/except is the none case.
  * network fetches are oracles passed in as functions; a terminal safe_get
    failure (budget exhausted or non-retryable status) is the none case.
  * time delays are rational numbers; random jitter is an explicit parameter.
-/

namespace CbbScores

/-- Does the character list cs start with the pattern pat? -/
def startsWithChars : List Char → List Char → Bool
  | [], _ => true
  | _ :: _, [] => false
  | p :: ps, c :: cs => p = c && startsWithChars ps cs

/-- Does the character list contain pat as a contiguous run? -/
def hasSubChars (pat : List Char) : List Char → Bool
  | [] => startsWithChars pat []
  | c :: cs => startsWithChars pat (c :: cs) || hasSubChars pat cs

/-- Substring containment, modelling the Python test `pat in s` on str. -/
def strContains (s pat : String) : Bool :=
  hasSubChars pat.data s.data

/-- ASCII lowering of one character, modelling str.lower per code point. -/
def lowerChar (c : Char) : Char :=
  if 65 ≤ c.toNat ∧ c.toNat ≤ 90 then Char.ofNat (c.toNat + 32) else c

/-- Python str.lower (the inputs of interest are ASCII hrefs/classes). -/
def strLower (s : String) : String :=
  String.mk (s.data.map lowerChar)

/-- Accumulator pass of decimal parsing: fails on any non-digit. -/
def digitsValAux : Nat → List Char → Option Nat
  | acc, [] => some acc
  | acc, c :: cs =>
      if c.isDigit then digitsValAux (acc * 10 + (c.toNat - 48)) cs else none

/-- Value of a non-empty all-digit character run. -/
def digitsVal : List Char → Option Nat
  | [] => none
  | cs => digitsValAux 0 cs

/-- Python int(str) on an already-stripped literal: optional sign, then at
least one digit; none models the raised ValueError. -/
def parseIntStr (s : String) : Option Int :=
  match s.data with
  | [] => none
  | c :: cs =>
      if c = '-' then (digitsVal cs).map (fun n => -(n : Int))
      else if c = '+' then (digitsVal cs).map (fun n => (n : Int))
      else (digitsVal (c :: cs)).map (fun n => (n : Int))

/-- The whitespace class str.strip() removes (ASCII portion). -/
def isPySpace (c : Char) : Bool :=
  [' ', '\t', '\n', '\r', '\x0b', '\x0c'].contains c

/-- Python str.strip() with no arguments. -/
def pyStrip (s : String) : String :=
  String.mk (((s.data.dropWhile isPySpace).reverse.dropWhile
    isPySpace).reverse)

/-- Python str.split(sep) for a one-character separator. -/
def splitCharsOn (sep : Char) : List Char → List (List Char)
  | [] => [[]]
  | c :: rest =>
      if c = sep then [] :: splitCharsOn sep rest
      else
        match splitCharsOn sep rest with
        | [] => [[c]]
        | h :: t => (c :: h) :: t

/-- Left-pad the decimal representation of n with zeros to width 2,
modelling the %m / %d strftime fields (and Python format spec 02d). -/
def pad2 (n : Nat) : String :=
  if n < 10 then "0" ++ toString n else toString n

/-- Left-pad the decimal representation of n with zeros to width 4,
modelling the %Y strftime field (and Python format spec 04d). -/
def pad4 (n : Nat) : String :=
  if n < 10 then "000" ++ toString n
  else if n < 100 then "00" ++ toString n
  else if n < 1000 then "0" ++ toString n
  else toString n

/-- A calendar date, as the (year, month, day) triple the scrapers pass
around as datetime objects. -/
structure Date where
  year : Nat
  month : Nat
  day : Nat
deriving DecidableEq

/-- rebuild_scores_25yrs.ymd, identical to the strftime "%Y-%m-%d" used
for date_str in final_scores_scraper_auto.scrape_day. -/
def ymd (d : Date) : String :=
  pad4 d.year ++ "-" ++ pad2 d.month ++ "-" ++ pad2 d.day

/-- The strftime "%-m/%-d/%Y" date text used by rebuild parse_day rows. -/
def mdy (d : Date) : String :=
  toString d.month ++ "/" ++ toString d.day ++ "/" ++ pad4 d.year

/-- OFFSEASON_MONTHS from final_scores_scraper_auto.py. -/
def OFFSEASON_MONTHS : List Nat := [5, 6, 7, 8, 9, 10]

/-- IN_SEASON_MONTHS from rebuild_scores_25yrs.py. -/
def IN_SEASON_MONTHS : List Nat := [11, 12, 1, 2, 3, 4]

/-- rebuild_scores_25yrs.is_in_season. -/
def is_in_season (d : Date) : Bool :=
  IN_SEASON_MONTHS.contains d.month

/-- BASE_URL from final_scores_scraper_auto.py. -/
def BASE_URL : String := "https://www.sports-reference.com"

/-! ## Request client: safe_get -/

/-- What one requests.get call can come back with: a raised transport
exception, or a response with a status code. -/
inductive FetchEvent where
  | err
  | status (code : Nat)
deriving DecidableEq

/-- Observable outcome of safe_get: the successful attempt index (the
response content is identified with the attempt that produced it), the
backoff sleeps performed in order, and the number of mandatory 3.1-second
pacing sleeps (one after every completed requests.get call). -/
structure SafeGetResult where
  result : Option Nat
  waits : List ℚ
  paces : Nat
deriving DecidableEq

/-- One loop iteration bookkeeping: prepend a backoff wait. -/
def SafeGetResult.addWait (w : ℚ) (r : SafeGetResult) : SafeGetResult :=
  { r with waits := w :: r.waits }

/-- One loop iteration bookkeeping: count a pacing sleep. -/
def SafeGetResult.addPace (r : SafeGetResult) : SafeGetResult :=
  { r with paces := r.paces + 1 }

/-- The `for attempt in range(retries)` loop body of safe_get, by recursion
on the remaining iterations, attempt being the current loop index.
events gives the outcome of the requests.get call at each attempt,
base the base_delay argument, jit the random.uniform(1.0, 3.0) draw
at each attempt. -/
def safe_get_loop (events : Nat → FetchEvent) (base : ℚ) (jit : Nat → ℚ) :
    Nat → Nat → SafeGetResult
  | _, 0 => { result := none, waits := [], paces := 0 }
  | attempt, rem + 1 =>
    match events attempt with
    | FetchEvent.err =>
        (safe_get_loop events base jit (attempt + 1) rem).addWait base
    | FetchEvent.status c =>
        if c = 200 then
          { result := some attempt, waits := [], paces := 1 }
        else if c = 429 then
          ((safe_get_loop events base jit (attempt + 1) rem).addWait
            (base * 2 ^ attempt + jit attempt)).addPace
        else
          { result := none, waits := [], paces := 1 }

/-- final_scores_scraper_auto.safe_get (call-site defaults retries=4,
base_delay=8.0). -/
def safe_get (events : Nat → FetchEvent) (retries : Nat) (base : ℚ)
    (jit : Nat → ℚ) : SafeGetResult :=
  safe_get_loop events base jit 0 retries

/-- The backoff waits safe_get performs over the first k attempts when every
one of those attempts is retryable: base for a transport error, exponential
backoff plus jitter for a 429. -/
def waitsUpTo (events : Nat → FetchEvent) (base : ℚ) (jit : Nat → ℚ)
    (k : Nat) : List ℚ :=
  (List.range k).map fun i =>
    match events i with
    | FetchEvent.err => base
    | FetchEvent.status _ => base * 2 ^ i + jit i

/-! ## Extraction pipeline of final_scores_scraper_auto.scrape_day

The scoreboard page and the per-game detail pages are represented by the
pieces of the DOM the code selects.  scrape_day is parametrised by the
stream of scoreboard responses successive safe_get calls would return
(the code performs exactly one such call and consumes index 0) and by an
oracle giving the safe_get outcome for each game-detail URL. -/

/-- One game record row, as built by scrape_day (dict with the eight keys). -/
structure Row where
  date : String
  home_team : String
  away_team : String
  home : Int
  away : Int
  total : Int
  margin : Int
  ot : Bool
deriving DecidableEq

/-- One tr of a table.teams block: the text of its first anchor
(select_one("a"), none when the anchor is absent) and the text of its
td.right score cell (none when the cell is absent). -/
structure TeamRow where
  linkText : Option String
  rightText : Option String
deriving DecidableEq

/-- One div.game_summary.gender-m block of the scoreboard page.  The
gamelink field records the detail-link href present in the markup;
scrape_day's inline-summary fallback never reads it (it is carried here
only so that properties about link dates can be stated). -/
structure SummaryBlock where
  gamelink : Option String
  teamRows : List TeamRow
deriving DecidableEq

/-- One td.gamelink cell of the scoreboard page: the href of its anchor
(none when find("a") fails) and the CSS classes of the cell. -/
structure GameLinkBox where
  href : Option String
  classes : List String
deriving DecidableEq

/-- A game-detail page: the texts selected by div.scorebox strong a and
div.scorebox div.score, the rows of cells of table.linescore when that
table exists, the table.teams rows of div.game_summary.gender-m when that
block exists, and whether any text node of the page contains "OT". -/
structure GamePage where
  scoreboxTeams : List String
  scoreboxScores : List String
  linescore : Option (List (List String))
  summaryMens : Option (List TeamRow)
  hasOT : Bool
deriving DecidableEq

/-- The scoreboard page for one day: its td.gamelink cells and its
div.game_summary.gender-m blocks. -/
structure ScoreboardPage where
  boxes : List GameLinkBox
  summaries : List SummaryBlock
deriving DecidableEq

/-- A score value flowing through scrape_day: Python keeps either the raw
text selected from the page or an int produced by a fallback branch, and
dispatches on isinstance at normalisation time. -/
inductive ScoreVal where
  | int (i : Int)
  | txt (s : String)
deriving DecidableEq

/-- The normalisation int(scores[i]) if isinstance(scores[i], int) else
int(str(scores[i]).strip()); a ValueError is the none case. -/
def ScoreVal.toScore : ScoreVal → Option Int
  | ScoreVal.int i => some i
  | ScoreVal.txt s => parseIntStr (pyStrip s)

/-- The try body of the pre-2004 inline-summary fallback of scrape_day
(lines 84-104): take the first two table.teams rows, team names from each
row's anchor, scores from each row's td.right; any missing element or
failed int() raises and the candidate is skipped.  The date field is set
to the target date string: no element of the block is consulted for a
date. -/
def parseSummary (dstr : String) (s : SummaryBlock) : Option Row :=
  match s.teamRows with
  | awayRow :: homeRow :: _ =>
      match awayRow.linkText, homeRow.linkText,
            awayRow.rightText, homeRow.rightText with
      | some awayTeam, some homeTeam, some awayTxt, some homeTxt =>
          match parseIntStr awayTxt, parseIntStr homeTxt with
          | some awayScore, some homeScore =>
              some { date := dstr, home_team := homeTeam,
                     away_team := awayTeam, home := homeScore,
                     away := awayScore, total := homeScore + awayScore,
                     margin := homeScore - awayScore, ot := false }
          | _, _ => none
      | _, _, _, _ => none
  | _ => none

/-- The try body of Fallback 1 (table.linescore, lines 142-150): teams from
the first cell of each of the first two rows, scores from the last cell;
any missing cell or failed int() raises, in which case the code resets
teams and scores to empty lists. -/
def linescoreTry (awayCells homeCells : List String) :
    Option (List String × List ScoreVal) :=
  match awayCells.head?, homeCells.head?,
        awayCells.getLast?, homeCells.getLast? with
  | some awayTeam, some homeTeam, some awayTxt, some homeTxt =>
      match parseIntStr awayTxt, parseIntStr homeTxt with
      | some awayScore, some homeScore =>
          some ([awayTeam, homeTeam],
                [ScoreVal.int awayScore, ScoreVal.int homeScore])
      | _, _ => none
  | _, _, _, _ => none

/-- Fallback 1 of scrape_day (lines 136-152): only entered when fewer than
two teams or scores were found; a present linescore table with at least two
rows is parsed, a raised exception empties both lists, and a missing table
or a table with fewer than two rows leaves the previous values. -/
def applyFallback1 (gp : GamePage) (ts : List String × List ScoreVal) :
    List String × List ScoreVal :=
  if ts.1.length < 2 ∨ ts.2.length < 2 then
    match gp.linescore with
    | none => ts
    | some rowsAlt =>
        match rowsAlt with
        | awayCells :: homeCells :: _ =>
            match linescoreTry awayCells homeCells with
            | some ts' => ts'
            | none => ([], [])
        | _ => ts
  else ts

/-- The try body of Fallback 2 (lines 158-167): like the inline-summary
parser, from the first two rows of the game summary table. -/
def summaryTry (awayRow homeRow : TeamRow) :
    Option (List String × List ScoreVal) :=
  match awayRow.linkText, homeRow.linkText,
        awayRow.rightText, homeRow.rightText with
  | some awayTeam, some homeTeam, some awayTxt, some homeTxt =>
      match parseIntStr awayTxt, parseIntStr homeTxt with
      | some awayScore, some homeScore =>
          some ([awayTeam, homeTeam],
                [ScoreVal.int awayScore, ScoreVal.int homeScore])
      | _, _ => none
  | _, _, _, _ => none

/-- Fallback 2 of scrape_day (lines 154-170): only entered when still fewer
than two teams or scores; a present div.game_summary.gender-m table.teams
with at least two rows is parsed, a raised exception empties both lists. -/
def applyFallback2 (gp : GamePage) (ts : List String × List ScoreVal) :
    List String × List ScoreVal :=
  if ts.1.length < 2 ∨ ts.2.length < 2 then
    match gp.summaryMens with
    | none => ts
    | some trs =>
        match trs with
        | awayRow :: homeRow :: _ =>
            match summaryTry awayRow homeRow with
            | some ts' => ts'
            | none => ([], [])
        | _ => ts
  else ts

/-- The team and score lists after the fallback chain of scrape_day
(lines 133-170): the div.scorebox selections, then Fallback 1, then
Fallback 2. -/
def normalizeTS (gp : GamePage) : List String × List ScoreVal :=
  applyFallback2 gp
    (applyFallback1 gp (gp.scoreboxTeams, gp.scoreboxScores.map ScoreVal.txt))

/-- The body of the box loop of scrape_day (lines 108-201) for one
td.gamelink cell; none is the `continue` outcome.  games is the safe_get
oracle for game-detail URLs. -/
def processBox (games : String → Option GamePage) (target : Date)
    (dstr : String) (box : GameLinkBox) : Option Row :=
  match box.href with
  | none => none
  | some href =>
    if ¬ strContains href ("/cbb/boxscores/" ++ dstr) then none
    else if strContains (strLower href) "women"
            ∨ box.classes.any (fun c => strContains (strLower c) "women")
    then none
    else if OFFSEASON_MONTHS.contains target.month then none
    else
      match games (BASE_URL ++ href) with
      | none => none
      | some gp =>
        if (normalizeTS gp).1.length < 2 ∨ (normalizeTS gp).2.length < 2
        then none
        else
          match (normalizeTS gp).1.getLast?, (normalizeTS gp).1.head?,
                (normalizeTS gp).2.getLast?, (normalizeTS gp).2.head? with
          | some homeTeam, some awayTeam, some homeSV, some awaySV =>
              match homeSV.toScore, awaySV.toScore with
              | some homeScore, some awayScore =>
                  some { date := dstr, home_team := homeTeam,
                         away_team := awayTeam, home := homeScore,
                         away := awayScore, total := homeScore + awayScore,
                         margin := homeScore - awayScore, ot := gp.hasOT }
              | _, _ => none
          | _, _, _, _ => none

/-- pandas drop_duplicates with keep="last": a row is kept exactly when no
later row has an equal key, and kept rows stay in their original order. -/
def dropDupLast {α κ : Type} [DecidableEq κ] (key : α → κ) : List α → List α
  | [] => []
  | x :: xs =>
      if xs.any (fun y => key y = key x) then dropDupLast key xs
      else x :: dropDupLast key xs

/-- pandas drop_duplicates with keep="first" (the default): a row is kept
exactly when no earlier row has an equal key. -/
def dropDupFirst {α κ : Type} [DecidableEq κ] (key : α → κ) : List α → List α
  | [] => []
  | x :: xs => x :: dropDupFirst key (xs.filter (fun y => ¬ key y = key x))
termination_by l => l.length
decreasing_by
  simp only [List.length_cons]
  exact Nat.lt_succ_of_le (List.length_filter_le _ _)

/-- The drop_duplicates subset of scrape_day, line 215. -/
def keyAuto (r : Row) : String × String × String :=
  (r.date, r.home_team, r.away_team)

/-- Everything scrape_day observes about one day: the day's rows, the
lines appended to the ledger file, and the number of safe_get calls made
for the scoreboard URL. -/
structure DayResult where
  rows : List Row
  log : List String
  calls : Nat
deriving DecidableEq

/-- The candidate rows scrape_day accumulates for a successfully fetched
scoreboard page before deduplication: the pre-2004 inline-summary fallback
rows (lines 82-106, only when year <= 2003), then the box-loop rows. -/
def dayCandidates (games : String → Option GamePage) (target : Date)
    (page : ScoreboardPage) : List Row :=
  (if target.year ≤ 2003
   then page.summaries.filterMap (parseSummary (ymd target))
   else [])
  ++ page.boxes.filterMap (processBox games target (ymd target))

/-- final_scores_scraper_auto.scrape_day.  responses is the stream of
outcomes successive safe_get calls on the scoreboard URL would produce;
the code performs exactly one call, consuming index 0.  A fetch failure
returns an empty frame after a console message only (line 72); zero
candidate rows log "0 games scraped"; otherwise the rows are deduplicated
on (date, home_team, away_team) keeping the last occurrence and the count
is logged. -/
def scrape_day (responses : Nat → Option ScoreboardPage)
    (games : String → Option GamePage) (target : Date) : DayResult :=
  match responses 0 with
  | none => { rows := [], log := [], calls := 1 }
  | some page =>
      if (dayCandidates games target page).isEmpty then
        { rows := [], log := [ymd target ++ ": 0 games scraped"], calls := 1 }
      else
        { rows := dropDupLast keyAuto (dayCandidates games target page),
          log := [ymd target ++ ": "
            ++ toString (dropDupLast keyAuto
                (dayCandidates games target page)).length
            ++ " games scraped"],
          calls := 1 }

/-! ## Output store and orchestrator of final_scores_scraper_auto -/

/-- The master CSV file: absent, present but unreadable by pd.read_csv,
or present with parseable rows.  Appending to an unreadable file keeps it
unreadable (the malformed prefix is still there). -/
inductive StoreFile where
  | missing
  | corrupt (blob : List Row)
  | ok (rows : List Row)
deriving DecidableEq

/-- final_scores_scraper_auto.append_to_master: nothing happens on an
empty frame; otherwise rows are appended, creating the file when absent. -/
def append_to_master : StoreFile → List Row → StoreFile
  | s, [] => s
  | StoreFile.missing, df => StoreFile.ok df
  | StoreFile.corrupt blob, df => StoreFile.corrupt (blob ++ df)
  | StoreFile.ok rows, df => StoreFile.ok (rows ++ df)

/-- final_scores_scraper_auto.get_existing_dates: the set of distinct date
values of the stored rows; a missing file or a read_csv failure yields the
empty set. -/
def get_existing_dates : StoreFile → List String
  | StoreFile.missing => []
  | StoreFile.corrupt _ => []
  | StoreFile.ok rows => (rows.map Row.date).dedup

/-- The network as run_auto_scrape sees it: for each date the stream of
scoreboard safe_get outcomes, and the safe_get outcome per game URL.
Using one fixed stream per date across runs expresses the assumption that
fetched page contents do not change between runs. -/
structure World where
  board : Date → Nat → Option ScoreboardPage
  games : String → Option GamePage

/-- One iteration of the run_auto_scrape loop (lines 264-277): skip the
day when its date string is in the existing set, otherwise scrape it and
append the frame to the master file; ledger lines accumulate. -/
def runStep (w : World) (existing : List String)
    (st : StoreFile × List String) (d : Date) : StoreFile × List String :=
  if (ymd d) ∈ existing then st
  else
    (append_to_master st.1 (scrape_day (w.board d) w.games d).rows,
     st.2 ++ (scrape_day (w.board d) w.games d).log)

/-- final_scores_scraper_auto.run_auto_scrape over a given day list: the
existing-date set is computed once from the store, then every day is
processed in order. -/
def run_auto_scrape (w : World) (days : List Date)
    (store : StoreFile) (ledger : List String) : StoreFile × List String :=
  days.foldl (runStep w (get_existing_dates store)) (store, ledger)

/-! ## rebuild_scores_25yrs: parse_day and scrape_range -/

/-- One game row of the rebuild variant (ot is 0/1 there). -/
structure RRow where
  date : String
  home_team : String
  away_team : String
  home : Int
  away : Int
  total : Int
  margin : Int
  ot : Nat
deriving DecidableEq

/-- One tr of a rebuild table.teams block: the (href, text) of the school
anchor selected by td a[href*='/cbb/schools/'] when present, and the text
of the td.right score cell when present. -/
structure RTeamRow where
  school : Option (String × String)
  rightText : Option String
deriving DecidableEq

/-- One div.game_summary block of a rebuild scoreboard page: its CSS
classes, its whole text given by get_text(" ", strip=True), the href of
the anchor selected by td.gamelink a[href*='/cbb/boxscores/'] when that
selector matches, and its table.teams rows. -/
structure RBox where
  classes : List String
  text : String
  gamelink : Option String
  teamRows : List RTeamRow
deriving DecidableEq

/-- rebuild row_to_team_score: name is the school-anchor text or "" when
the anchor is absent; a present anchor whose href lacks "/men/" rejects
the row outright; the score is int() of the td.right text, with a raised
exception giving None. -/
def row_to_team_score (tr : RTeamRow) : Option String × Option Int :=
  match tr.school with
  | some (href, text) =>
      if ¬ strContains href "/men/" then (none, none)
      else (some text, parseIntStr (pyStrip (tr.rightText.getD "")))
  | none => (some "", parseIntStr (pyStrip (tr.rightText.getD "")))

/-- The rebuild parse_day loop body for one div.game_summary block; none
is the `continue` outcome.  The first table row is treated as the away
team, the second as home. -/
def parseRBox (d : Date) (box : RBox) : Option RRow :=
  if ¬ (box.classes.contains "gender-m"
        || strContains box.text "Men's") then none
  else
    match box.gamelink with
    | none => none
    | some href =>
      if ¬ strContains href (ymd d) then none
      else
        match box.teamRows with
        | tr1 :: tr2 :: _ =>
            match row_to_team_score tr1, row_to_team_score tr2 with
            | (some t1, some s1), (some t2, some s2) =>
                if t1 = "" ∨ t2 = "" then none
                else
                  some { date := mdy d, home_team := t2, away_team := t1,
                         home := s2, away := s1, total := s2 + s1,
                         margin := s2 - s1,
                         ot := if strContains box.text "OT" then 1 else 0 }
            | _, _ => none
        | _ => none

/-- The drop_duplicates subset of rebuild parse_day, line 116. -/
def keyRebuild (r : RRow) : String × String × Int × Int :=
  (r.home_team, r.away_team, r.home, r.away)

/-- rebuild_scores_25yrs.parse_day: men-only, date-strict boxes, exact
in-day dupes dropped keeping the first occurrence (pandas default). -/
def parse_day (boxes : List RBox) (d : Date) : List RRow :=
  dropDupFirst keyRebuild (boxes.filterMap (parseRBox d))

/-- A rebuild scoreboard page: whether the lowered html contains the
"no box scores" stub text, and the div.game_summary blocks. -/
structure RebuildPage where
  noBoxScores : Bool
  boxes : List RBox
deriving DecidableEq

/-- One iteration of the rebuild scrape_range loop: an off-season day is
skipped before any fetch; a fetched day is recorded in the fetch trace;
a stub page ("no box scores") contributes no rows. -/
def rangeStep (pages : Date → RebuildPage) (acc : List RRow × List Date)
    (d : Date) : List RRow × List Date :=
  if ¬ is_in_season d then acc
  else if (pages d).noBoxScores then (acc.1, acc.2 ++ [d])
  else (acc.1 ++ parse_day (pages d).boxes d, acc.2 ++ [d])

/-- rebuild_scores_25yrs.scrape_range over a given day list: the rows
appended to the output CSV and the trace of fetched days.  The rebuild
variant keeps no ledger. -/
def scrape_range (pages : Date → RebuildPage) (days : List Date) :
    List RRow × List Date :=
  days.foldl (rangeStep pages) ([], [])

/-! ## rescrape_missed_days.find_failed_days -/

/-- Python str.strip("[] "): drop those characters from both ends. -/
def stripBrackSpace (s : String) : String :=
  let cs : List Char := ['[', ']', ' ']
  String.mk (((s.data.dropWhile (cs.contains ·)).reverse.dropWhile
    (cs.contains ·)).reverse)

/-- Is every character a decimal digit? -/
def allDigits (cs : List Char) : Bool :=
  cs.all Char.isDigit

/-- Day count of a month under the Gregorian leap rule. -/
def daysInMonth (y m : Nat) : Nat :=
  if m = 2 then
    (if (y % 4 = 0 && decide (y % 100 ≠ 0)) || y % 400 = 0 then 29 else 28)
  else if [4, 6, 9, 11].contains m then 30
  else 31

/-- Acceptance of datetime.strptime(ds, "%Y-%m-%d"): three dash-separated
all-digit fields, the year of exactly four digits (the %Y pattern) with
value at least 1 (datetime has no year 0), month and day of one or two
digits, a month in 1..12, and a day fitting the month. -/
def isValidYMD (ds : String) : Bool :=
  match splitCharsOn '-' ds.data with
  | [ys, ms, dss] =>
      allDigits ys && allDigits ms && allDigits dss
        && decide (ys.length = 4)
        && decide (1 ≤ (digitsVal ys).getD 0)
        && decide (1 ≤ ms.length) && decide (ms.length ≤ 2)
        && decide (1 ≤ dss.length) && decide (dss.length ≤ 2)
        && decide (1 ≤ (digitsVal ms).getD 0)
        && decide ((digitsVal ms).getD 0 ≤ 12)
        && decide (1 ≤ (digitsVal dss).getD 0)
        && decide ((digitsVal dss).getD 0
            ≤ daysInMonth ((digitsVal ys).getD 0) ((digitsVal ms).getD 0))
  | _ => false

/-- Does a ledger line carry one of the three failure markers the
reconciliation scan greps for?  Matching is raw substring containment. -/
def hasFailureMarker (line : String) : Bool :=
  strContains line "0 games scraped" || strContains line "Failed to load"
    || strContains line "❌"

/-- The text a marker line contributes: the part before the first colon,
stripped of brackets and spaces. -/
def lineDateText (line : String) : String :=
  stripBrackSpace (String.mk ((splitCharsOn ':' line.data).headD []))

/-- The per-line body of find_failed_days: on a marker line, take the text
before the first colon, strip brackets and spaces, and keep it when
strptime accepts it. -/
def extractFailedDate (line : String) : Option String :=
  if hasFailureMarker line then
    if isValidYMD (lineDateText line) then some (lineDateText line) else none
  else none

/-- Code-point comparison of characters, as Python compares strings. -/
def charListLtB : List Char → List Char → Bool
  | [], [] => false
  | [], _ :: _ => true
  | _ :: _, [] => false
  | a :: as, b :: bs =>
      if a.toNat < b.toNat then true
      else if b.toNat < a.toNat then false
      else charListLtB as bs

/-- Python str comparison a < b (lexicographic on code points). -/
def strLtB (a b : String) : Bool :=
  charListLtB a.data b.data

/-- Insert a string into a strictly sorted duplicate-free list. -/
def insertSortedDistinct (s : String) : List String → List String
  | [] => [s]
  | x :: xs =>
      if s = x then x :: xs
      else if strLtB s x then s :: x :: xs
      else x :: insertSortedDistinct s xs

/-- Python sorted(set(l)) for strings: the strictly increasing
enumeration of the distinct elements. -/
def sortedSet (l : List String) : List String :=
  l.foldl (fun acc s => insertSortedDistinct s acc) []

/-- rescrape_missed_days.find_failed_days on the ledger lines:
sorted(set(...)) of the extracted dates. -/
def find_failed_days (lines : List String) : List String :=
  sortedSet (lines.filterMap extractFailedDate)

/-! ## Theorems: request client -/

/-- The backoff waits over the k attempts starting at a given attempt
index, when all of them are retryable. -/
def waitsFrom (events : Nat → FetchEvent) (base : ℚ) (jit : Nat → ℚ)
    (attempt k : Nat) : List ℚ :=
  (List.range k).map fun i =>
    match events (attempt + i) with
    | FetchEvent.err => base
    | FetchEvent.status _ => base * 2 ^ (attempt + i) + jit (attempt + i)

@[simp] lemma addWait_result (w : ℚ) (r : SafeGetResult) :
    (r.addWait w).result = r.result := rfl

@[simp] lemma addWait_waits (w : ℚ) (r : SafeGetResult) :
    (r.addWait w).waits = w :: r.waits := rfl

@[simp] lemma addPace_result (r : SafeGetResult) :
    r.addPace.result = r.result := rfl

@[simp] lemma addPace_waits (r : SafeGetResult) :
    r.addPace.waits = r.waits := rfl

lemma waitsFrom_zero (events : Nat → FetchEvent) (base : ℚ) (jit : Nat → ℚ)
    (attempt : Nat) : waitsFrom events base jit attempt 0 = [] := rfl

lemma waitsFrom_succ (events : Nat → FetchEvent) (base : ℚ) (jit : Nat → ℚ)
    (attempt k : Nat) :
    waitsFrom events base jit attempt (k + 1) =
      (match events attempt with
       | FetchEvent.err => base
       | FetchEvent.status _ => base * 2 ^ attempt + jit attempt)
        :: waitsFrom events base jit (attempt + 1) k := by
  unfold waitsFrom
  rw [List.range_succ_eq_map]
  simp only [List.map_cons, List.map_map, Nat.add_zero]
  congr 1
  apply List.map_congr_left
  intro i _
  have h : attempt + (i + 1) = attempt + 1 + i := by omega
  simp only [Function.comp_apply, Nat.succ_eq_add_one, h]

lemma waitsUpTo_eq_waitsFrom (events : Nat → FetchEvent) (base : ℚ)
    (jit : Nat → ℚ) (k : Nat) :
    waitsUpTo events base jit k = waitsFrom events base jit 0 k := by
  unfold waitsUpTo waitsFrom
  apply List.map_congr_left
  intro i _
  simp only [Nat.zero_add]

/-- Core behaviour of the safe_get loop: as long as every earlier attempt
was retryable (transport error or 429), a 200 at attempt k returns the
content with exactly the prescribed backoff waits, while any other status
at attempt k is terminal with no further wait. -/
lemma safe_get_loop_spec (events : Nat → FetchEvent) (base : ℚ)
    (jit : Nat → ℚ) :
    ∀ (k attempt rem : Nat), k < rem →
    (∀ i, i < k → events (attempt + i) = FetchEvent.err
                  ∨ events (attempt + i) = FetchEvent.status 429) →
    ((events (attempt + k) = FetchEvent.status 200 →
      (safe_get_loop events base jit attempt rem).result = some (attempt + k)
      ∧ (safe_get_loop events base jit attempt rem).waits
          = waitsFrom events base jit attempt k)
     ∧ (∀ c, ¬ c = 200 → ¬ c = 429 →
        events (attempt + k) = FetchEvent.status c →
        (safe_get_loop events base jit attempt rem).result = none
        ∧ (safe_get_loop events base jit attempt rem).waits
            = waitsFrom events base jit attempt k)) := by
  intro k
  induction k with
  | zero =>
      intro attempt rem hk _
      obtain ⟨rem', rfl⟩ : ∃ r, rem = r + 1 := ⟨rem - 1, by omega⟩
      constructor
      · intro h200
        simp only [Nat.add_zero] at h200
        simp [safe_get_loop, h200, waitsFrom_zero]
      · intro c h200 h429 hc
        simp only [Nat.add_zero] at hc
        simp [safe_get_loop, hc, h200, h429, waitsFrom_zero]
  | succ k ih =>
      intro attempt rem hk hpre
      obtain ⟨rem', rfl⟩ : ∃ r, rem = r + 1 := ⟨rem - 1, by omega⟩
      have hk' : k < rem' := by omega
      have hpre' : ∀ i, i < k → events (attempt + 1 + i) = FetchEvent.err
          ∨ events (attempt + 1 + i) = FetchEvent.status 429 := by
        intro i hi
        have h : attempt + 1 + i = attempt + (i + 1) := by omega
        rw [h]
        exact hpre (i + 1) (by omega)
      have hidx : attempt + 1 + k = attempt + (k + 1) := by omega
      have h0 := hpre 0 (by omega)
      simp only [Nat.add_zero] at h0
      have ihs := ih (attempt + 1) rem' hk' hpre'
      rcases h0 with h0 | h0
      · constructor
        · intro h200
          rw [hidx] at ihs
          have := ihs.1 h200
          simp [safe_get_loop, h0, waitsFrom_succ, this.1, this.2]
        · intro c hc200 hc429 hc
          rw [hidx] at ihs
          have := ihs.2 c hc200 hc429 hc
          simp [safe_get_loop, h0, waitsFrom_succ, this.1, this.2]
      · constructor
        · intro h200
          rw [hidx] at ihs
          have := ihs.1 h200
          simp [safe_get_loop, h0, waitsFrom_succ, this.1, this.2]
        · intro c hc200 hc429 hc
          rw [hidx] at ihs
          have := ihs.2 c hc200 hc429 hc
          simp [safe_get_loop, h0, waitsFrom_succ, this.1, this.2]

/-- The loop never performs more backoff waits than it has iterations. -/
lemma safe_get_loop_waits_le (events : Nat → FetchEvent) (base : ℚ)
    (jit : Nat → ℚ) :
    ∀ (rem attempt : Nat),
      (safe_get_loop events base jit attempt rem).waits.length ≤ rem := by
  intro rem
  induction rem with
  | zero => intro attempt; simp [safe_get_loop]
  | succ rem ih =>
      intro attempt
      rcases h : events attempt with _ | c
      · simpa [safe_get_loop, h] using Nat.succ_le_succ (ih (attempt + 1))
      · by_cases h200 : c = 200
        · simp [safe_get_loop, h, h200]
        · by_cases h429 : c = 429
          · simpa [safe_get_loop, h, h200, h429]
              using Nat.succ_le_succ (ih (attempt + 1))
          · simp [safe_get_loop, h, h200, h429]

/-- Claim C5: for every URL response stream and retry budget, safe_get
retries only on transport errors and HTTP 429, waiting
base_delay * 2 ^ attempt plus the jitter draw before each 429 retry and a
fixed base delay after a transport error, never exceeding the retry budget;
it returns the content on HTTP 200, and on every other status returns a
terminal failure immediately without any further retry or wait. -/
theorem safe_get_retry_policy (events : Nat → FetchEvent) (retries k : Nat)
    (base : ℚ) (jit : Nat → ℚ) (hk : k < retries)
    (hpre : ∀ i, i < k → events i = FetchEvent.err
                         ∨ events i = FetchEvent.status 429) :
    (events k = FetchEvent.status 200 →
      (safe_get events retries base jit).result = some k
      ∧ (safe_get events retries base jit).waits
          = waitsUpTo events base jit k)
    ∧ (∀ c, ¬ c = 200 → ¬ c = 429 → events k = FetchEvent.status c →
      (safe_get events retries base jit).result = none
      ∧ (safe_get events retries base jit).waits
          = waitsUpTo events base jit k)
    ∧ (∀ events2 : Nat → FetchEvent,
      (safe_get events2 retries base jit).waits.length ≤ retries) := by
  have hpre0 : ∀ i, i < k → events (0 + i) = FetchEvent.err
      ∨ events (0 + i) = FetchEvent.status 429 := by
    intro i hi; rw [Nat.zero_add]; exact hpre i hi
  have h := safe_get_loop_spec events base jit k 0 retries hk hpre0
  rw [Nat.zero_add] at h
  rw [waitsUpTo_eq_waitsFrom]
  refine ⟨h.1, h.2, ?_⟩
  intro events2
  exact safe_get_loop_waits_le events2 base jit retries 0

/-- The response stream of the spec scenario: HTTP 429 twice, then 200. -/
def ev429stream : Nat → FetchEvent :=
  fun n => if n < 2 then FetchEvent.status 429 else FetchEvent.status 200

/-- A concrete jitter draw. -/
def oneTwoJit : Nat → ℚ := fun n => 1 + (n : ℚ)

/-- Witness for safe_get_retry_policy: 429 twice then 200 with retries = 4
and base_delay = 8 returns the content of attempt 2 after exactly the two
backoff waits 8 * 2 ^ 0 + 1 and 8 * 2 ^ 1 + 2. -/
theorem safe_get_retry_policy_witness :
    (2 < 4 ∧ ∀ i, i < 2 → ev429stream i = FetchEvent.err
                          ∨ ev429stream i = FetchEvent.status 429)
    ∧ (safe_get ev429stream 4 8 oneTwoJit).result = some 2
    ∧ (safe_get ev429stream 4 8 oneTwoJit).waits = [9, 18] := by
  have hpre : ∀ i, i < 2 → ev429stream i = FetchEvent.err
      ∨ ev429stream i = FetchEvent.status 429 := by
    intro i hi
    right
    have h : i = 0 ∨ i = 1 := by omega
    rcases h with rfl | rfl <;> rfl
  have h := (safe_get_retry_policy ev429stream 4 2 8 oneTwoJit
    (by omega) hpre).1 rfl
  refine ⟨⟨by omega, hpre⟩, h.1, ?_⟩
  rw [h.2]
  simp only [waitsUpTo, List.range_succ, List.range_zero, List.map,
    List.nil_append, List.cons_append, ev429stream, oneTwoJit]
  norm_num

/-! ## Theorems: deduplication -/

section Dedup

variable {α κ : Type} [DecidableEq κ] (key : α → κ)

lemma dropDupLast_subset {l : List α} {x : α}
    (h : x ∈ dropDupLast key l) : x ∈ l := by
  induction l with
  | nil => simp [dropDupLast] at h
  | cons a xs ih =>
      by_cases hdup : xs.any (fun y => key y = key a)
      · simp only [dropDupLast, if_pos hdup] at h
        exact List.mem_cons_of_mem a (ih h)
      · simp only [dropDupLast, if_neg hdup, List.mem_cons] at h
        rcases h with rfl | h
        · exact List.mem_cons_self x xs
        · exact List.mem_cons_of_mem a (ih h)

/-- Membership in dropDupLast: exactly the elements that are a last
occurrence of their key. -/
lemma mem_dropDupLast {l : List α} {x : α} :
    x ∈ dropDupLast key l ↔
      ∃ l1 l2, l = l1 ++ x :: l2 ∧ ∀ y ∈ l2, key y ≠ key x := by
  induction l with
  | nil =>
      simp [dropDupLast]
  | cons a xs ih =>
      by_cases hdup : xs.any (fun y => key y = key a)
      · simp only [dropDupLast, if_pos hdup]
        rw [ih]
        constructor
        · rintro ⟨l1, l2, rfl, hl2⟩
          exact ⟨a :: l1, l2, rfl, hl2⟩
        · rintro ⟨l1, l2, heq, hl2⟩
          cases l1 with
          | nil =>
              simp only [List.nil_append, List.cons.injEq] at heq
              obtain ⟨rfl, rfl⟩ := heq
              rw [List.any_eq_true] at hdup
              obtain ⟨y, hy, hky⟩ := hdup
              exact absurd (by simpa using hky) (hl2 y hy)
          | cons b l1' =>
              simp only [List.cons_append, List.cons.injEq] at heq
              obtain ⟨rfl, htl⟩ := heq
              exact ⟨l1', l2, htl, hl2⟩
      · simp only [dropDupLast, if_neg hdup, List.mem_cons]
        rw [ih]
        constructor
        · rintro (rfl | ⟨l1, l2, rfl, hl2⟩)
          · refine ⟨[], xs, rfl, ?_⟩
            intro y hy
            rw [List.any_eq_true] at hdup
            push_neg at hdup
            intro hk
            exact hdup y hy (by simpa using hk)
          · exact ⟨a :: l1, l2, rfl, hl2⟩
        · rintro ⟨l1, l2, heq, hl2⟩
          cases l1 with
          | nil =>
              simp only [List.nil_append, List.cons.injEq] at heq
              exact Or.inl heq.1.symm
          | cons b l1' =>
              simp only [List.cons_append, List.cons.injEq] at heq
              obtain ⟨rfl, htl⟩ := heq
              exact Or.inr ⟨l1', l2, htl, hl2⟩

/-- The keys surviving dropDupLast are pairwise distinct. -/
lemma dropDupLast_keys_nodup (l : List α) :
    ((dropDupLast key l).map key).Nodup := by
  induction l with
  | nil => simp [dropDupLast]
  | cons a xs ih =>
      by_cases hdup : xs.any (fun y => key y = key a)
      · simp only [dropDupLast, if_pos hdup]
        exact ih
      · simp only [dropDupLast, if_neg hdup, List.map_cons, List.nodup_cons]
        refine ⟨?_, ih⟩
        intro hmem
        rw [List.mem_map] at hmem
        obtain ⟨y, hy, hky⟩ := hmem
        rw [List.any_eq_true] at hdup
        exact hdup ⟨y, dropDupLast_subset key hy, by simpa using hky⟩

/-- Fuel-indexed helper: dropDupFirst only returns elements of its input. -/
lemma dropDupFirst_subset_aux :
    ∀ (n : Nat) (l : List α), l.length ≤ n →
      ∀ x, x ∈ dropDupFirst key l → x ∈ l := by
  intro n
  induction n with
  | zero =>
      intro l hl x hx
      match l, hl with
      | [], _ => simp [dropDupFirst] at hx
  | succ n ih =>
      intro l hl x hx
      match l with
      | [] => simp [dropDupFirst] at hx
      | a :: xs =>
          rw [dropDupFirst, List.mem_cons] at hx
          rcases hx with rfl | hx
          · exact List.mem_cons_self x xs
          · have hlen : (xs.filter (fun y => ¬ key y = key a)).length ≤ n := by
              have h1 := List.length_filter_le
                (fun y => decide ¬ key y = key a) xs
              simp only [List.length_cons] at hl
              omega
            have := ih _ hlen x hx
            exact List.mem_cons_of_mem a (List.mem_of_mem_filter this)

lemma dropDupFirst_subset {l : List α} {x : α}
    (h : x ∈ dropDupFirst key l) : x ∈ l :=
  dropDupFirst_subset_aux key l.length l (Nat.le_refl _) x h

/-- Splitting a filtered list at an element splits the original list. -/
lemma filter_eq_append_cons {p : α → Bool} :
    ∀ {xs m1 m2 : List α} {x : α}, xs.filter p = m1 ++ x :: m2 →
      ∃ l1 l2, xs = l1 ++ x :: l2 ∧ l1.filter p = m1 ∧ l2.filter p = m2 := by
  intro xs
  induction xs with
  | nil =>
      intro m1 m2 x h
      rw [List.filter_nil] at h
      exact absurd h (by simp)
  | cons a xs ih =>
      intro m1 m2 x h
      by_cases hpa : p a
      · rw [List.filter_cons_of_pos hpa] at h
        cases m1 with
        | nil =>
            simp only [List.nil_append, List.cons.injEq] at h
            obtain ⟨rfl, hxs⟩ := h
            exact ⟨[], xs, rfl, by simp, hxs⟩
        | cons b m1' =>
            simp only [List.cons_append, List.cons.injEq] at h
            obtain ⟨rfl, htl⟩ := h
            obtain ⟨l1, l2, rfl, hf1, hf2⟩ := ih htl
            refine ⟨a :: l1, l2, rfl, ?_, hf2⟩
            rw [List.filter_cons_of_pos hpa, hf1]
      · rw [List.filter_cons_of_neg (by simpa using hpa)] at h
        obtain ⟨l1, l2, rfl, hf1, hf2⟩ := ih h
        refine ⟨a :: l1, l2, rfl, ?_, hf2⟩
        rw [List.filter_cons_of_neg (by simpa using hpa)]
        exact hf1

/-- Fuel-indexed helper for the dropDupFirst membership characterization. -/
lemma mem_dropDupFirst_aux :
    ∀ (n : Nat) (l : List α), l.length ≤ n → ∀ x,
      (x ∈ dropDupFirst key l ↔
        ∃ l1 l2, l = l1 ++ x :: l2 ∧ ∀ y ∈ l1, key y ≠ key x) := by
  intro n
  induction n with
  | zero =>
      intro l hl x
      match l, hl with
      | [], _ =>
          simp [dropDupFirst]
  | succ n ih =>
      intro l hl x
      match l with
      | [] => simp [dropDupFirst]
      | a :: xs =>
          have hlen : (xs.filter (fun y => ¬ key y = key a)).length ≤ n := by
            have h1 := List.length_filter_le
              (fun y => decide ¬ key y = key a) xs
            simp only [List.length_cons] at hl
            omega
          rw [dropDupFirst, List.mem_cons, ih _ hlen x]
          constructor
          · rintro (rfl | ⟨m1, m2, hfil, hm1⟩)
            · exact ⟨[], xs, rfl, by simp⟩
            · obtain ⟨l1, l2, rfl, hf1, _⟩ := filter_eq_append_cons hfil
              have hpx : ¬ key x = key a := by
                have : x ∈ (l1 ++ x :: l2).filter
                    (fun y => ¬ key y = key a) := by
                  rw [hfil]
                  exact List.mem_append_right _ (List.mem_cons_self x m2)
                simpa using (List.mem_filter.mp this).2
              refine ⟨a :: l1, l2, rfl, ?_⟩
              intro y hy
              rcases List.mem_cons.mp hy with rfl | hy
              · exact fun h => hpx h.symm
              · by_cases hpy : key y = key a
                · rw [hpy]
                  exact fun h => hpx h.symm
                · have : y ∈ l1.filter (fun z => ¬ key z = key a) :=
                    List.mem_filter.mpr ⟨hy, by simpa using hpy⟩
                  rw [hf1] at this
                  exact hm1 y this
          · rintro ⟨l1, l2, heq, hl1⟩
            cases l1 with
            | nil =>
                simp only [List.nil_append, List.cons.injEq] at heq
                exact Or.inl heq.1.symm
            | cons b l1' =>
                simp only [List.cons_append, List.cons.injEq] at heq
                obtain ⟨rfl, htl⟩ := heq
                have hax : key a ≠ key x := hl1 a (List.mem_cons_self _ _)
                have hl1' : ∀ y ∈ l1', key y ≠ key x := fun y hy =>
                  hl1 y (List.mem_cons_of_mem _ hy)
                refine Or.inr ⟨l1'.filter (fun z => ¬ key z = key a),
                  l2.filter (fun z => ¬ key z = key a), ?_, ?_⟩
                · rw [htl, List.filter_append,
                    List.filter_cons_of_pos (by simpa using fun h => hax h.symm)]
                · intro y hy
                  exact hl1' y (List.mem_of_mem_filter hy)

/-- Membership in dropDupFirst: exactly the elements that are a first
occurrence of their key. -/
lemma mem_dropDupFirst {l : List α} {x : α} :
    x ∈ dropDupFirst key l ↔
      ∃ l1 l2, l = l1 ++ x :: l2 ∧ ∀ y ∈ l1, key y ≠ key x :=
  mem_dropDupFirst_aux key l.length l (Nat.le_refl _) x

/-- Fuel-indexed helper: keys surviving dropDupFirst are distinct. -/
lemma dropDupFirst_keys_nodup_aux :
    ∀ (n : Nat) (l : List α), l.length ≤ n →
      ((dropDupFirst key l).map key).Nodup := by
  intro n
  induction n with
  | zero =>
      intro l hl
      match l, hl with
      | [], _ => simp [dropDupFirst]
  | succ n ih =>
      intro l hl
      match l with
      | [] => simp [dropDupFirst]
      | a :: xs =>
          have hlen : (xs.filter (fun y => ¬ key y = key a)).length ≤ n := by
            have h1 := List.length_filter_le
              (fun y => decide ¬ key y = key a) xs
            simp only [List.length_cons] at hl
            omega
          rw [dropDupFirst, List.map_cons, List.nodup_cons]
          refine ⟨?_, ih _ hlen⟩
          intro hmem
          rw [List.mem_map] at hmem
          obtain ⟨y, hy, hky⟩ := hmem
          have : y ∈ xs.filter (fun z => ¬ key z = key a) :=
            dropDupFirst_subset key hy
          have := (List.mem_filter.mp this).2
          simp only [decide_eq_true_eq] at this
          exact this hky

/-- The keys surviving dropDupFirst are pairwise distinct. -/
lemma dropDupFirst_keys_nodup (l : List α) :
    ((dropDupFirst key l).map key).Nodup :=
  dropDupFirst_keys_nodup_aux key l.length l (Nat.le_refl _)

end Dedup

/-! ## Theorems: shape of extracted records -/

/-- Every record the inline-summary fallback accepts carries the target
date string and derived fields recomputed from its two scores. -/
lemma parseSummary_eq_some {dstr : String} {s : SummaryBlock} {r : Row}
    (h : parseSummary dstr s = some r) :
    r.date = dstr ∧ r.total = r.home + r.away
      ∧ r.margin = r.home - r.away ∧ r.ot = false := by
  unfold parseSummary at h
  repeat' split at h
  all_goals cases h
  all_goals exact ⟨rfl, rfl, rfl, rfl⟩

/-- Every record the box loop accepts passed the strict date filter on its
detail-link href, and carries the target date string and derived fields
recomputed from its two scores. -/
lemma processBox_eq_some {games : String → Option GamePage} {target : Date}
    {dstr : String} {box : GameLinkBox} {r : Row}
    (h : processBox games target dstr box = some r) :
    (∃ href, box.href = some href
      ∧ strContains href ("/cbb/boxscores/" ++ dstr) = true)
    ∧ r.date = dstr ∧ r.total = r.home + r.away
      ∧ r.margin = r.home - r.away := by
  unfold processBox at h
  cases hhref : box.href with
  | none => rw [hhref] at h; cases h
  | some href =>
      rw [hhref] at h
      dsimp only at h
      by_cases hdate : strContains href ("/cbb/boxscores/" ++ dstr)
      · rw [if_neg (not_not_intro hdate)] at h
        refine ⟨⟨href, rfl, hdate⟩, ?_⟩
        repeat' split at h
        all_goals cases h
        all_goals exact ⟨rfl, rfl, rfl⟩
      · rw [if_pos hdate] at h
        cases h

/-- Every record parse_day accepts passed the men-only filter and the
strict date filter on its gamelink href, and carries derived fields
recomputed from its two scores. -/
lemma parseRBox_eq_some {d : Date} {box : RBox} {g : RRow}
    (h : parseRBox d box = some g) :
    (∃ href, box.gamelink = some href ∧ strContains href (ymd d) = true)
    ∧ g.date = mdy d ∧ g.total = g.home + g.away
      ∧ g.margin = g.home - g.away := by
  unfold parseRBox at h
  by_cases hmens : (box.classes.contains "gender-m"
      || strContains box.text "Men's" : Bool)
  · rw [if_neg (not_not_intro hmens)] at h
    cases hlink : box.gamelink with
    | none => rw [hlink] at h; cases h
    | some href =>
        rw [hlink] at h
        dsimp only at h
        by_cases hdate : strContains href (ymd d)
        · rw [if_neg (not_not_intro hdate)] at h
          refine ⟨⟨href, rfl, hdate⟩, ?_⟩
          repeat' split at h
          all_goals cases h
          all_goals exact ⟨rfl, rfl, rfl⟩
        · rw [if_pos hdate] at h
          cases h
  · rw [if_pos hmens] at h
    cases h

/-- Rows returned by scrape_day come from the candidate list of a
successfully fetched page. -/
lemma scrape_day_rows_mem {responses : Nat → Option ScoreboardPage}
    {games : String → Option GamePage} {target : Date} {r : Row}
    (h : r ∈ (scrape_day responses games target).rows) :
    ∃ page, responses 0 = some page
      ∧ r ∈ dayCandidates games target page := by
  unfold scrape_day at h
  cases hresp : responses 0 with
  | none => rw [hresp] at h; simp at h
  | some page =>
      rw [hresp] at h
      dsimp only at h
      by_cases hempty : (dayCandidates games target page).isEmpty
      · rw [if_pos hempty] at h
        simp at h
      · rw [if_neg hempty] at h
        exact ⟨page, rfl, dropDupLast_subset _ h⟩

/-- Candidate rows come from the inline-summary fallback (pre-2004 only)
or from the box loop. -/
lemma dayCandidates_mem {games : String → Option GamePage} {target : Date}
    {page : ScoreboardPage} {r : Row}
    (h : r ∈ dayCandidates games target page) :
    (∃ s ∈ page.summaries, target.year ≤ 2003
        ∧ parseSummary (ymd target) s = some r)
    ∨ (∃ b ∈ page.boxes, processBox games target (ymd target) b = some r) := by
  unfold dayCandidates at h
  rw [List.mem_append] at h
  rcases h with h | h
  · by_cases hyr : target.year ≤ 2003
    · rw [if_pos hyr, List.mem_filterMap] at h
      obtain ⟨s, hs, hps⟩ := h
      exact Or.inl ⟨s, hs, hyr, hps⟩
    · rw [if_neg hyr] at h
      simp at h
  · rw [List.mem_filterMap] at h
    obtain ⟨b, hb, hpb⟩ := h
    exact Or.inr ⟨b, hb, hpb⟩

/-- dropDupLast returns the empty list only on the empty list. -/
lemma dropDupLast_eq_nil_iff {α κ : Type} [DecidableEq κ] (key : α → κ)
    (l : List α) : dropDupLast key l = [] ↔ l = [] := by
  induction l with
  | nil => simp [dropDupLast]
  | cons a xs ih =>
      by_cases hdup : xs.any (fun y => key y = key a)
      · simp only [dropDupLast, if_pos hdup, ih]
        constructor
        · rintro rfl
          simp at hdup
        · intro h
          cases h
      · simp only [dropDupLast, if_neg hdup]
        simp

/-! ## Concrete fixtures -/

/-- A 2021 game-detail page in the current scorebox format. -/
def gamePage1 : GamePage :=
  { scoreboxTeams := ["Kansas", "Duke"], scoreboxScores := ["70", "75"],
    linescore := none, summaryMens := none, hasOT := false }

/-- A gamelink box whose href carries the 2021-11-10 date. -/
def box1 : GameLinkBox :=
  { href := some "/cbb/boxscores/2021-11-10-duke.html", classes := [] }

/-- A 2021-11-10 scoreboard page with the single box. -/
def board1 : ScoreboardPage := { boxes := [box1], summaries := [] }

/-- A game-page oracle serving gamePage1 at its URL. -/
def games1 : String → Option GamePage := fun u =>
  if u = BASE_URL ++ "/cbb/boxscores/2021-11-10-duke.html" then some gamePage1
  else none

/-- The record scrape_day extracts from board1 via games1. -/
def row1 : Row :=
  { date := "2021-11-10", home_team := "Duke", away_team := "Kansas",
    home := 75, away := 70, total := 145, margin := 5, ot := false }

/-- A pre-2004 inline summary block whose embedded link carries the
previous day 2003-01-14. -/
def sblock1 : SummaryBlock :=
  { gamelink := some "/cbb/boxscores/2003-01-14-duke.html",
    teamRows := [{ linkText := some "Kansas", rightText := some "70" },
                 { linkText := some "Duke", rightText := some "75" }] }

/-- A 2003 scoreboard page holding only that stale summary block. -/
def board2 : ScoreboardPage := { boxes := [], summaries := [sblock1] }

/-- The record the inline-summary fallback builds from sblock1. -/
def rowS : Row :=
  { date := "2003-01-15", home_team := "Duke", away_team := "Kansas",
    home := 75, away := 70, total := 145, margin := 5, ot := false }

/-- Two same-team summary blocks differing only in the away score. -/
def sblockA : SummaryBlock :=
  { gamelink := none,
    teamRows := [{ linkText := some "Kansas", rightText := some "70" },
                 { linkText := some "Duke", rightText := some "75" }] }

/-- Second candidate: away score 71 instead of 70. -/
def sblockB : SummaryBlock :=
  { gamelink := none,
    teamRows := [{ linkText := some "Kansas", rightText := some "71" },
                 { linkText := some "Duke", rightText := some "75" }] }

/-- A 2003 scoreboard page with the two score-variant blocks. -/
def board3 : ScoreboardPage := { boxes := [], summaries := [sblockA, sblockB] }

/-- The surviving record after scrape_day dedup over board3. -/
def rowB : Row :=
  { date := "2003-01-15", home_team := "Duke", away_team := "Kansas",
    home := 75, away := 71, total := 146, margin := 4, ot := false }

/-- An empty scoreboard page: zero candidates. -/
def board4 : ScoreboardPage := { boxes := [], summaries := [] }

/-- A response stream whose first response is the empty page and whose
second (the response a retry would have seen) is board1. -/
def responses4 : Nat → Option ScoreboardPage := fun n =>
  if n = 0 then some board4 else some board1

/-! ## Claim C4 -/

/-- Claim C4: for every GameRecord produced by any pipeline variant, the
derived fields satisfy total = home + away and margin = home - away,
recomputed from the two parsed scores. -/
theorem derived_fields_recomputed :
    (∀ (responses : Nat → Option ScoreboardPage)
       (games : String → Option GamePage) (target : Date) (r : Row),
       r ∈ (scrape_day responses games target).rows →
       r.total = r.home + r.away ∧ r.margin = r.home - r.away)
    ∧ (∀ (boxes : List RBox) (d : Date) (g : RRow),
       g ∈ parse_day boxes d →
       g.total = g.home + g.away ∧ g.margin = g.home - g.away) := by
  constructor
  · intro responses games target r h
    obtain ⟨page, _, hc⟩ := scrape_day_rows_mem h
    rcases dayCandidates_mem hc with ⟨s, _, _, hps⟩ | ⟨b, _, hpb⟩
    · exact ⟨(parseSummary_eq_some hps).2.1, (parseSummary_eq_some hps).2.2.1⟩
    · exact ⟨(processBox_eq_some hpb).2.2.1, (processBox_eq_some hpb).2.2.2⟩
  · intro boxes d g h
    unfold parse_day at h
    have h2 := dropDupFirst_subset keyRebuild h
    rw [List.mem_filterMap] at h2
    obtain ⟨b, _, hpb⟩ := h2
    exact ⟨(parseRBox_eq_some hpb).2.2.1, (parseRBox_eq_some hpb).2.2.2⟩

/-- Witness for derived_fields_recomputed at the concrete 2021-11-10
fixture. -/
theorem derived_fields_recomputed_witness :
    row1 ∈ (scrape_day (fun _ => some board1) games1 ⟨2021, 11, 10⟩).rows
    ∧ row1.total = row1.home + row1.away
    ∧ row1.margin = row1.home - row1.away := by
  have hmem : row1 ∈ (scrape_day (fun _ => some board1) games1
      ⟨2021, 11, 10⟩).rows := by decide
  exact ⟨hmem,
    derived_fields_recomputed.1 (fun _ => some board1) games1
      ⟨2021, 11, 10⟩ row1 hmem⟩

/-! ## Claim C1 -/

/-- Claim C1 counterexample: for target 2003-01-15, a scoreboard page
whose only candidate is an inline summary block with an embedded detail
link dated 2003-01-14 still yields that block's record: the oldest
inline-summary fallback never consults the link, so a candidate whose
link date differs from the target day is included. -/
theorem claim_c1_counterexample :
    (scrape_day (fun _ => some board2) (fun _ => none) ⟨2003, 1, 15⟩).rows
      = [rowS]
    ∧ sblock1.gamelink = some "/cbb/boxscores/2003-01-14-duke.html"
    ∧ strContains "/cbb/boxscores/2003-01-14-duke.html"
        (ymd ⟨2003, 1, 15⟩) = false := by
  refine ⟨by decide, rfl, by decide⟩

/-- Claim C1 (amended): the strict date guard holds for the detail-link
strategies — every record accepted by the box loop of scrape_day comes
from a box whose href contains "/cbb/boxscores/" followed by the target
date string, and every record accepted by parse_day comes from a block
whose gamelink href contains the target date — but not for the pre-2004
inline-summary fallback of scrape_day, whose outcome is independent of
the embedded link. -/
theorem date_guard_link_strategies :
    (∀ (games : String → Option GamePage) (target : Date) (dstr : String)
       (box : GameLinkBox) (r : Row),
       processBox games target dstr box = some r →
       ∃ href, box.href = some href
         ∧ strContains href ("/cbb/boxscores/" ++ dstr) = true)
    ∧ (∀ (d : Date) (box : RBox) (g : RRow),
       parseRBox d box = some g →
       ∃ href, box.gamelink = some href ∧ strContains href (ymd d) = true)
    ∧ (∀ (dstr : String) (link1 link2 : Option String) (trs : List TeamRow),
       parseSummary dstr { gamelink := link1, teamRows := trs }
         = parseSummary dstr { gamelink := link2, teamRows := trs }) := by
  refine ⟨?_, ?_, ?_⟩
  · intro games target dstr box r h
    exact (processBox_eq_some h).1
  · intro d box g h
    exact (parseRBox_eq_some h).1
  · intro dstr link1 link2 trs
    rfl

/-- Witness for date_guard_link_strategies at the 2021-11-10 box. -/
theorem date_guard_link_strategies_witness :
    processBox games1 ⟨2021, 11, 10⟩ "2021-11-10" box1 = some row1
    ∧ ∃ href, box1.href = some href
        ∧ strContains href ("/cbb/boxscores/" ++ "2021-11-10") = true :=
  ⟨by decide,
   date_guard_link_strategies.1 games1 ⟨2021, 11, 10⟩ "2021-11-10" box1 row1
     (by decide)⟩

/-! ## Claim C2 -/

/-- Claim C2 counterexample: two same-day candidates for the same teams
that differ only in one score do NOT both survive scrape_day
deduplication: the subset is (date, home_team, away_team) without the
scores, so only the last of the two remains. -/
theorem claim_c2_counterexample :
    (dayCandidates (fun _ => none) ⟨2003, 1, 15⟩ board3).length = 2
    ∧ (scrape_day (fun _ => some board3) (fun _ => none)
        ⟨2003, 1, 15⟩).rows = [rowB] := by
  refine ⟨by decide, by decide⟩

/-- Claim C2 (amended): scrape_day collapses same-day candidates by the
key (date, home team, away team) — scores are not part of the key —
keeping the last occurrence, while parse_day of the rebuild variant
collapses by (home team, away team, home score, away score) keeping the
first occurrence; in each case the surviving keys are pairwise
distinct. -/
theorem dedup_key_and_keep_policy :
    (∀ (responses : Nat → Option ScoreboardPage)
       (games : String → Option GamePage) (target : Date)
       (page : ScoreboardPage),
       responses 0 = some page →
       (scrape_day responses games target).rows
         = dropDupLast keyAuto (dayCandidates games target page))
    ∧ (∀ (l : List Row) (r : Row),
       r ∈ dropDupLast keyAuto l ↔
         ∃ l1 l2, l = l1 ++ r :: l2 ∧ ∀ y ∈ l2, keyAuto y ≠ keyAuto r)
    ∧ (∀ l : List Row, ((dropDupLast keyAuto l).map keyAuto).Nodup)
    ∧ (∀ (boxes : List RBox) (d : Date) (g : RRow),
       g ∈ parse_day boxes d ↔
         ∃ l1 l2, boxes.filterMap (parseRBox d) = l1 ++ g :: l2
           ∧ ∀ y ∈ l1, keyRebuild y ≠ keyRebuild g)
    ∧ (∀ (boxes : List RBox) (d : Date),
       ((parse_day boxes d).map keyRebuild).Nodup) := by
  refine ⟨?_, ?_, ?_, ?_, ?_⟩
  · intro responses games target page hresp
    unfold scrape_day
    rw [hresp]
    dsimp only
    by_cases hempty : (dayCandidates games target page).isEmpty
    · rw [if_pos hempty]
      rw [List.isEmpty_iff] at hempty
      rw [hempty]
      rfl
    · rw [if_neg hempty]
  · intro l r
    exact mem_dropDupLast keyAuto
  · intro l
    exact dropDupLast_keys_nodup keyAuto l
  · intro boxes d g
    exact mem_dropDupFirst keyRebuild
  · intro boxes d
    exact dropDupFirst_keys_nodup keyRebuild _

/-- Witness for dedup_key_and_keep_policy at the board3 page: the two
score-variant candidates collapse to the single last occurrence. -/
theorem dedup_key_and_keep_policy_witness :
    (fun _ => some board3 : Nat → Option ScoreboardPage) 0 = some board3
    ∧ (scrape_day (fun _ => some board3) (fun _ => none)
        ⟨2003, 1, 15⟩).rows
      = dropDupLast keyAuto
          (dayCandidates (fun _ => none) ⟨2003, 1, 15⟩ board3) :=
  ⟨rfl,
   dedup_key_and_keep_policy.1 (fun _ => some board3) (fun _ => none)
     ⟨2003, 1, 15⟩ board3 rfl⟩

/-! ## Claim C3 -/

/-- Claim C3 counterexample: a day whose first scoreboard response yields
zero records while the response a retry would see yields one valid record
still ends with a single fetch and the ledger line "0 games scraped",
not "1 games scraped": run_auto_scrape performs no additional
fetch+extract retry. -/
theorem claim_c3_counterexample :
    (scrape_day responses4 games1 ⟨2021, 11, 10⟩).calls = 1
    ∧ (scrape_day responses4 games1 ⟨2021, 11, 10⟩).rows = []
    ∧ (scrape_day responses4 games1 ⟨2021, 11, 10⟩).log
        = ["2021-11-10: 0 games scraped"]
    ∧ (scrape_day (fun _ => responses4 1) games1 ⟨2021, 11, 10⟩).rows
        = [row1] := by
  refine ⟨by decide, by decide, by decide, by decide⟩

/-- Claim C3 (amended): the orchestrator performs no built-in retry: a
day is fetched exactly once per run, and a successfully fetched day with
zero extracted records is immediately logged "0 games scraped" (recovery
of such days is left to the separate rescrape pass). -/
theorem no_builtin_retry :
    (∀ (responses : Nat → Option ScoreboardPage)
       (games : String → Option GamePage) (target : Date),
       (scrape_day responses games target).calls = 1)
    ∧ (∀ (responses : Nat → Option ScoreboardPage)
       (games : String → Option GamePage) (target : Date)
       (page : ScoreboardPage),
       responses 0 = some page →
       (scrape_day responses games target).rows = [] →
       (scrape_day responses games target).log
         = [ymd target ++ ": 0 games scraped"]) := by
  constructor
  · intro responses games target
    unfold scrape_day
    cases responses 0 with
    | none => rfl
    | some page =>
        dsimp only
        by_cases hempty : (dayCandidates games target page).isEmpty
        · rw [if_pos hempty]
        · rw [if_neg hempty]
  · intro responses games target page hresp hrows
    unfold scrape_day at hrows ⊢
    rw [hresp] at hrows ⊢
    dsimp only at hrows ⊢
    by_cases hempty : (dayCandidates games target page).isEmpty
    · rw [if_pos hempty]
    · rw [if_neg hempty] at hrows ⊢
      dsimp only at hrows
      rw [dropDupLast_eq_nil_iff] at hrows
      rw [List.isEmpty_iff] at hempty
      exact absurd hrows hempty

/-- Witness for no_builtin_retry at the empty-first-response stream. -/
theorem no_builtin_retry_witness :
    responses4 0 = some board4
    ∧ (scrape_day responses4 games1 ⟨2021, 11, 10⟩).rows = []
    ∧ (scrape_day responses4 games1 ⟨2021, 11, 10⟩).log
        = [ymd ⟨2021, 11, 10⟩ ++ ": 0 games scraped"] :=
  ⟨rfl, by decide,
   no_builtin_retry.2 responses4 games1 ⟨2021, 11, 10⟩ board4 rfl (by decide)⟩

/-! ## Claim C6 -/

/-- A gamelink box for an off-season date. -/
def box5 : GameLinkBox :=
  { href := some "/cbb/boxscores/2005-06-15-demo.html", classes := [] }

/-- The off-season scoreboard page holding that box. -/
def board5 : ScoreboardPage := { boxes := [box5], summaries := [] }

/-- A world serving board5 for 2005-06-15. -/
def w5 : World :=
  { board := fun d _ => if d = ⟨2005, 6, 15⟩ then some board5 else none,
    games := fun _ => some gamePage1 }

/-- Claim C6 counterexample: the off-season day 2005-06-15 inside the
requested range is not skipped by run_auto_scrape: its scoreboard is
fetched (the month filter only discards per-game boxes) and a
"0 games scraped" ledger line is written for it. -/
theorem claim_c6_counterexample :
    OFFSEASON_MONTHS.contains (6 : Nat) = true
    ∧ (scrape_day (w5.board ⟨2005, 6, 15⟩) w5.games ⟨2005, 6, 15⟩).calls = 1
    ∧ (run_auto_scrape w5 [⟨2005, 6, 15⟩] StoreFile.missing []).2
        = ["2005-06-15: 0 games scraped"] := by
  refine ⟨by decide, by decide, by decide⟩

/-- processBox discards every box when the target month is off-season. -/
lemma processBox_offseason {games : String → Option GamePage}
    {target : Date} (dstr : String) (box : GameLinkBox)
    (hm : OFFSEASON_MONTHS.contains target.month = true) :
    processBox games target dstr box = none := by
  unfold processBox
  cases box.href with
  | none => rfl
  | some href =>
      dsimp only
      by_cases hdate : strContains href ("/cbb/boxscores/" ++ dstr)
      · rw [if_neg (not_not_intro hdate)]
        by_cases hw : strContains (strLower href) "women" = true
            ∨ box.classes.any (fun c => strContains (strLower c) "women")
              = true
        · rw [if_pos hw]
        · rw [if_neg hw, if_pos hm]
      · rw [if_pos hdate]

/-- Days recorded in the scrape_range fetch trace extend the accumulator
only with in-season days. -/
lemma rangeStep_fold_trace (pages : Date → RebuildPage) :
    ∀ (days : List Date) (acc : List RRow × List Date) (d : Date),
      d ∈ (days.foldl (rangeStep pages) acc).2 →
      d ∈ acc.2 ∨ is_in_season d = true := by
  intro days
  induction days with
  | nil =>
      intro acc d h
      exact Or.inl h
  | cons d0 days ih =>
      intro acc d h
      rw [List.foldl_cons] at h
      rcases ih _ d h with hmem | hseason
      · unfold rangeStep at hmem
        by_cases hs : is_in_season d0
        · rw [if_neg (not_not_intro hs)] at hmem
          by_cases hstub : (pages d0).noBoxScores
          · rw [if_pos hstub] at hmem
            rcases List.mem_append.mp hmem with hmem | hmem
            · exact Or.inl hmem
            · rw [List.mem_singleton] at hmem
              subst hmem
              exact Or.inr hs
          · rw [if_neg hstub] at hmem
            rcases List.mem_append.mp hmem with hmem | hmem
            · exact Or.inl hmem
            · rw [List.mem_singleton] at hmem
              subst hmem
              exact Or.inr hs
        · rw [if_pos hs] at hmem
          exact Or.inl hmem
      · exact Or.inr hseason

/-- Claim C6 (amended): in the rebuild variant, off-season days are
skipped before any fetch (only in-season days ever appear in the fetch
trace, and the rebuild keeps no ledger at all); in run_auto_scrape,
off-season days are NOT skipped: the scoreboard is fetched like any
other day, the month filter merely discards candidate boxes, and a
post-2003 off-season day with a successful fetch ends with the
"0 games scraped" ledger line. -/
theorem offseason_handling :
    (∀ (pages : Date → RebuildPage) (days : List Date) (d : Date),
       d ∈ (scrape_range pages days).2 → is_in_season d = true)
    ∧ (∀ (responses : Nat → Option ScoreboardPage)
       (games : String → Option GamePage) (target : Date)
       (page : ScoreboardPage),
       responses 0 = some page →
       OFFSEASON_MONTHS.contains target.month = true →
       2003 < target.year →
       (scrape_day responses games target).calls = 1
       ∧ (scrape_day responses games target).rows = []
       ∧ (scrape_day responses games target).log
           = [ymd target ++ ": 0 games scraped"]) := by
  constructor
  · intro pages days d h
    unfold scrape_range at h
    rcases rangeStep_fold_trace pages days ([], []) d h with hmem | hseason
    · simp at hmem
    · exact hseason
  · intro responses games target page hresp hm hyr
    have hcand : dayCandidates games target page = [] := by
      unfold dayCandidates
      rw [if_neg (by omega : ¬ target.year ≤ 2003)]
      rw [List.nil_append, List.filterMap_eq_nil_iff]
      intro b _
      exact processBox_offseason _ b hm
    unfold scrape_day
    rw [hresp]
    dsimp only
    rw [hcand]
    exact ⟨rfl, rfl, rfl⟩

/-- Witness for offseason_handling at the 2005-06-15 fixture. -/
theorem offseason_handling_witness :
    ((fun _ => some board5 : Nat → Option ScoreboardPage) 0 = some board5)
    ∧ OFFSEASON_MONTHS.contains (6 : Nat) = true
    ∧ 2003 < 2005
    ∧ (scrape_day (fun _ => some board5) (fun _ => some gamePage1)
        ⟨2005, 6, 15⟩).rows = []
    ∧ (scrape_day (fun _ => some board5) (fun _ => some gamePage1)
        ⟨2005, 6, 15⟩).log = [ymd ⟨2005, 6, 15⟩ ++ ": 0 games scraped"] := by
  have h := offseason_handling.2 (fun _ => some board5)
    (fun _ => some gamePage1) ⟨2005, 6, 15⟩ board5 rfl (by decide) (by decide)
  exact ⟨rfl, by decide, by omega, h.2.1, h.2.2⟩

/-! ## Claim C7 -/

/-- A world where the 2021-11-09 fetch terminally fails and 2021-11-10
succeeds with one game. -/
def w7 : World :=
  { board := fun d _ =>
      if d = ⟨2021, 11, 10⟩ then some board1 else none,
    games := games1 }

/-- Claim C7 evaluated at its failing input: when the scoreboard fetch
for 2021-11-09 terminally fails, scrape_day returns before writing any
ledger line — the "Failed to load" message goes to standard output only —
so the ledger carries no "failed" entry for that date, while the run
continues and the next day lands its row. -/
theorem fetch_failure_no_ledger :
    scrape_day (w7.board ⟨2021, 11, 9⟩) w7.games ⟨2021, 11, 9⟩
      = { rows := [], log := [], calls := 1 }
    ∧ run_auto_scrape w7 [⟨2021, 11, 9⟩, ⟨2021, 11, 10⟩]
        StoreFile.missing []
      = (StoreFile.ok [row1], ["2021-11-10: 1 games scraped"]) := by
  refine ⟨by decide, by decide⟩

/-! ## Claim C8 -/

/-- A store file pd.read_csv can parse: absent (created on first append)
or well-formed. -/
def StoreFile.readable : StoreFile → Prop
  | StoreFile.corrupt _ => False
  | _ => True

lemma readable_append {st : StoreFile} (h : st.readable) (df : List Row) :
    (append_to_master st df).readable := by
  cases st with
  | missing => cases df <;> trivial
  | corrupt blob => exact absurd h (by simp [StoreFile.readable])
  | ok rows => cases df <;> trivial

/-- Appending never removes a date from the existing-date set. -/
lemma mem_dates_append {st : StoreFile} {x : String}
    (hx : x ∈ get_existing_dates st) (df : List Row) :
    x ∈ get_existing_dates (append_to_master st df) := by
  cases st with
  | missing => simp [get_existing_dates] at hx
  | corrupt blob => simp [get_existing_dates] at hx
  | ok rows =>
      cases df with
      | nil => exact hx
      | cons r rs =>
          simp only [append_to_master, get_existing_dates,
            List.mem_dedup, List.mem_map] at hx ⊢
          obtain ⟨y, hy, hxy⟩ := hx
          exact ⟨y, List.mem_append_left _ hy, hxy⟩

/-- Appending a non-empty frame of same-dated rows to a readable store
puts that date into the existing-date set. -/
lemma dates_append_mem {st : StoreFile} (hread : st.readable)
    {df : List Row} {ds : String} (hne : df ≠ [])
    (hall : ∀ r ∈ df, r.date = ds) :
    ds ∈ get_existing_dates (append_to_master st df) := by
  match df, hne with
  | r :: rs, _ =>
      have hr : r.date = ds := hall r (List.mem_cons_self _ _)
      cases st with
      | missing =>
          simp only [append_to_master, get_existing_dates, List.mem_dedup,
            List.mem_map]
          exact ⟨r, List.mem_cons_self _ _, hr⟩
      | corrupt blob => exact absurd hread (by simp [StoreFile.readable])
      | ok rows =>
          simp only [append_to_master, get_existing_dates, List.mem_dedup,
            List.mem_map]
          exact ⟨r, List.mem_append_right _ (List.mem_cons_self _ _), hr⟩

/-- Every row scrape_day returns is dated with the target date string. -/
lemma scrape_day_rows_date {responses : Nat → Option ScoreboardPage}
    {games : String → Option GamePage} {target : Date} {r : Row}
    (h : r ∈ (scrape_day responses games target).rows) :
    r.date = ymd target := by
  obtain ⟨page, _, hc⟩ := scrape_day_rows_mem h
  rcases dayCandidates_mem hc with ⟨s, _, _, hps⟩ | ⟨b, _, hpb⟩
  · exact (parseSummary_eq_some hps).1
  · exact (processBox_eq_some hpb).2.1

/-- Invariants of one whole orchestrator pass: the store stays readable,
existing dates persist, and each processed day is either skipped, empty,
or leaves its date in the final store. -/
lemma run_fold_props (w : World) (existing : List String) :
    ∀ (days : List Date) (st : StoreFile × List String),
      st.1.readable →
      (days.foldl (runStep w existing) st).1.readable
      ∧ (∀ x, x ∈ get_existing_dates st.1 →
          x ∈ get_existing_dates (days.foldl (runStep w existing) st).1)
      ∧ (∀ d ∈ days, ymd d ∈ existing
          ∨ (scrape_day (w.board d) w.games d).rows = []
          ∨ ymd d ∈ get_existing_dates
              (days.foldl (runStep w existing) st).1) := by
  intro days
  induction days with
  | nil =>
      intro st hread
      exact ⟨hread, fun x hx => hx, fun d hd => absurd hd (by simp)⟩
  | cons d0 days ih =>
      intro st hread
      rw [List.foldl_cons]
      have hread' : (runStep w existing st d0).1.readable := by
        unfold runStep
        by_cases hskip : ymd d0 ∈ existing
        · rw [if_pos hskip]; exact hread
        · rw [if_neg hskip]; exact readable_append hread _
      have hmono' : ∀ x, x ∈ get_existing_dates st.1 →
          x ∈ get_existing_dates (runStep w existing st d0).1 := by
        intro x hx
        unfold runStep
        by_cases hskip : ymd d0 ∈ existing
        · rw [if_pos hskip]; exact hx
        · rw [if_neg hskip]; exact mem_dates_append hx _
      obtain ⟨hr, hm, hd⟩ := ih (runStep w existing st d0) hread'
      refine ⟨hr, fun x hx => hm x (hmono' x hx), ?_⟩
      intro d hdmem
      rcases List.mem_cons.mp hdmem with rfl | hdmem
      · by_cases hskip : ymd d ∈ existing
        · exact Or.inl hskip
        · by_cases hrows : (scrape_day (w.board d) w.games d).rows = []
          · exact Or.inr (Or.inl hrows)
          · refine Or.inr (Or.inr ?_)
            refine hm _ ?_
            unfold runStep
            rw [if_neg hskip]
            exact dates_append_mem hread hrows
              (fun r hr => scrape_day_rows_date hr)
      · exact hd d hdmem

/-- A pass over days that are all skipped-or-empty leaves the store
untouched. -/
lemma run_fold_const (w : World) (existing : List String) :
    ∀ (days : List Date) (st : StoreFile × List String),
      (∀ d ∈ days, ymd d ∈ existing
        ∨ (scrape_day (w.board d) w.games d).rows = []) →
      (days.foldl (runStep w existing) st).1 = st.1 := by
  intro days
  induction days with
  | nil => intro st _; rfl
  | cons d0 days ih =>
      intro st hall
      rw [List.foldl_cons]
      have hstep : (runStep w existing st d0).1 = st.1 := by
        unfold runStep
        rcases hall d0 (List.mem_cons_self _ _) with hskip | hempty
        · rw [if_pos hskip]
        · by_cases hskip : ymd d0 ∈ existing
          · rw [if_pos hskip]
          · rw [if_neg hskip, hempty]
            cases st.1 <;> rfl
      rw [ih (runStep w existing st d0)
        (fun d hd => hall d (List.mem_cons_of_mem _ hd))]
      exact hstep

/-- Claim C8: starting from a readable (missing or well-formed) store,
running the orchestrator a second time over the same day list against
the store and ledger left by a completed first run appends no rows:
the output store is unchanged.  Page contents are fixed per date in the
World, which is the unchanged-between-runs assumption. -/
theorem run_auto_scrape_idempotent (w : World) (days : List Date)
    (store0 : StoreFile) (ledger0 : List String)
    (hread : store0.readable) :
    (run_auto_scrape w days
        (run_auto_scrape w days store0 ledger0).1
        (run_auto_scrape w days store0 ledger0).2).1
      = (run_auto_scrape w days store0 ledger0).1 := by
  unfold run_auto_scrape
  obtain ⟨hr1, hm1, hd1⟩ :=
    run_fold_props w (get_existing_dates store0) days (store0, ledger0) hread
  apply run_fold_const
  intro d hd
  rcases hd1 d hd with hskip | hempty | hfinal
  · exact Or.inl (hm1 _ hskip)
  · exact Or.inr hempty
  · exact Or.inl hfinal

/-- Witness for run_auto_scrape_idempotent: two passes over the
two-day fixture starting from a missing store. -/
theorem run_auto_scrape_idempotent_witness :
    StoreFile.readable StoreFile.missing
    ∧ (run_auto_scrape w7 [⟨2021, 11, 9⟩, ⟨2021, 11, 10⟩]
        (run_auto_scrape w7 [⟨2021, 11, 9⟩, ⟨2021, 11, 10⟩]
          StoreFile.missing []).1
        (run_auto_scrape w7 [⟨2021, 11, 9⟩, ⟨2021, 11, 10⟩]
          StoreFile.missing []).2).1
      = (run_auto_scrape w7 [⟨2021, 11, 9⟩, ⟨2021, 11, 10⟩]
          StoreFile.missing []).1 :=
  ⟨trivial,
   run_auto_scrape_idempotent w7 [⟨2021, 11, 9⟩, ⟨2021, 11, 10⟩]
     StoreFile.missing [] trivial⟩

/-! ## Claim C9 -/

lemma charListLtB_irrefl : ∀ l : List Char, charListLtB l l = false := by
  intro l
  induction l with
  | nil => rfl
  | cons a as ih =>
      unfold charListLtB
      rw [if_neg (Nat.lt_irrefl _), if_neg (Nat.lt_irrefl _)]
      exact ih

lemma charListLtB_trans : ∀ (a b c : List Char),
    charListLtB a b = true → charListLtB b c = true →
    charListLtB a c = true := by
  intro a
  induction a with
  | nil =>
      intro b c hab hbc
      cases b with
      | nil => exact absurd hab (by simp [charListLtB])
      | cons y ys =>
          cases c with
          | nil => exact absurd hbc (by simp [charListLtB])
          | cons z zs => rfl
  | cons x xs ih =>
      intro b c hab hbc
      cases b with
      | nil => exact absurd hab (by simp [charListLtB])
      | cons y ys =>
          cases c with
          | nil => exact absurd hbc (by simp [charListLtB])
          | cons z zs =>
              unfold charListLtB at hab hbc ⊢
              by_cases hxy : x.toNat < y.toNat
              · by_cases hyz : y.toNat < z.toNat
                · rw [if_pos (by omega : x.toNat < z.toNat)]
                · rw [if_neg hyz] at hbc
                  by_cases hzy : z.toNat < y.toNat
                  · rw [if_pos hzy] at hbc
                    exact absurd hbc (by simp)
                  · rw [if_pos (by omega : x.toNat < z.toNat)]
              · rw [if_neg hxy] at hab
                by_cases hyx : y.toNat < x.toNat
                · rw [if_pos hyx] at hab
                  exact absurd hab (by simp)
                · rw [if_neg hyx] at hab
                  by_cases hyz : y.toNat < z.toNat
                  · rw [if_pos (by omega : x.toNat < z.toNat)]
                  · rw [if_neg hyz] at hbc
                    by_cases hzy : z.toNat < y.toNat
                    · rw [if_pos hzy] at hbc
                      exact absurd hbc (by simp)
                    · rw [if_neg hzy] at hbc
                      rw [if_neg (by omega : ¬ x.toNat < z.toNat),
                        if_neg (by omega : ¬ z.toNat < x.toNat)]
                      exact ih ys zs hab hbc

lemma charToNat_inj {a b : Char} (h : a.toNat = b.toNat) : a = b :=
  Char.eq_of_val_eq (UInt32.ext h)

lemma charListLtB_total_of_ne : ∀ (a b : List Char), a ≠ b →
    charListLtB a b = true ∨ charListLtB b a = true := by
  intro a
  induction a with
  | nil =>
      intro b hne
      cases b with
      | nil => exact absurd rfl hne
      | cons y ys => exact Or.inl rfl
  | cons x xs ih =>
      intro b hne
      cases b with
      | nil => exact Or.inr rfl
      | cons y ys =>
          by_cases hxy : x.toNat < y.toNat
          · left
            unfold charListLtB
            rw [if_pos hxy]
          · by_cases hyx : y.toNat < x.toNat
            · right
              unfold charListLtB
              rw [if_pos hyx]
            · have hx : x = y := charToNat_inj (by omega)
              subst hx
              have hne' : xs ≠ ys := by
                intro h
                exact hne (by rw [h])
              rcases ih ys hne' with h | h
              · left
                unfold charListLtB
                rw [if_neg hxy, if_neg hyx]
                exact h
              · right
                unfold charListLtB
                rw [if_neg hxy, if_neg hyx]
                exact h

lemma strLtB_irrefl (s : String) : strLtB s s = false :=
  charListLtB_irrefl s.data

lemma strLtB_trans {a b c : String} (hab : strLtB a b = true)
    (hbc : strLtB b c = true) : strLtB a c = true :=
  charListLtB_trans a.data b.data c.data hab hbc

lemma strLtB_total_of_ne {a b : String} (h : a ≠ b) :
    strLtB a b = true ∨ strLtB b a = true := by
  refine charListLtB_total_of_ne a.data b.data ?_
  intro hd
  exact h (String.ext hd)

lemma mem_insertSortedDistinct (s y : String) : ∀ l : List String,
    (y ∈ insertSortedDistinct s l ↔ y = s ∨ y ∈ l) := by
  intro l
  induction l with
  | nil => simp [insertSortedDistinct]
  | cons x xs ih =>
      unfold insertSortedDistinct
      by_cases heq : s = x
      · rw [if_pos heq]
        subst heq
        constructor
        · intro h
          exact Or.inr h
        · rintro (rfl | h)
          · exact List.mem_cons_self _ _
          · exact h
      · rw [if_neg heq]
        by_cases hlt : strLtB s x
        · rw [if_pos hlt]
          simp only [List.mem_cons]
        · rw [if_neg hlt]
          rw [List.mem_cons, ih, List.mem_cons]
          tauto

lemma pairwise_insertSortedDistinct (s : String) : ∀ l : List String,
    l.Pairwise (fun a b => strLtB a b = true) →
    (insertSortedDistinct s l).Pairwise (fun a b => strLtB a b = true) := by
  intro l
  induction l with
  | nil =>
      intro _
      simp [insertSortedDistinct]
  | cons x xs ih =>
      intro hp
      rw [List.pairwise_cons] at hp
      obtain ⟨hx, hxs⟩ := hp
      unfold insertSortedDistinct
      by_cases heq : s = x
      · rw [if_pos heq]
        exact List.pairwise_cons.mpr ⟨hx, hxs⟩
      · by_cases hlt : strLtB s x
        · rw [if_neg heq, if_pos hlt]
          refine List.pairwise_cons.mpr
            ⟨?_, List.pairwise_cons.mpr ⟨hx, hxs⟩⟩
          intro y hy
          rcases List.mem_cons.mp hy with rfl | hy
          · exact hlt
          · exact strLtB_trans hlt (hx y hy)
        · rw [if_neg heq, if_neg hlt]
          have hgt : strLtB x s = true := by
            rcases strLtB_total_of_ne heq with h | h
            · exact absurd h hlt
            · exact h
          refine List.pairwise_cons.mpr ⟨?_, ih hxs⟩
          intro y hy
          rcases (mem_insertSortedDistinct s y xs).mp hy with rfl | hy
          · exact hgt
          · exact hx y hy

lemma sortedSet_fold_props : ∀ (l acc : List String),
    acc.Pairwise (fun a b => strLtB a b = true) →
    (l.foldl (fun acc s => insertSortedDistinct s acc) acc).Pairwise
        (fun a b => strLtB a b = true)
    ∧ (∀ x, x ∈ l.foldl (fun acc s => insertSortedDistinct s acc) acc
        ↔ x ∈ acc ∨ x ∈ l) := by
  intro l
  induction l with
  | nil =>
      intro acc hp
      exact ⟨hp, by simp⟩
  | cons s l ih =>
      intro acc hp
      rw [List.foldl_cons]
      obtain ⟨h1, h2⟩ := ih (insertSortedDistinct s acc)
        (pairwise_insertSortedDistinct s acc hp)
      refine ⟨h1, ?_⟩
      intro x
      rw [h2 x, mem_insertSortedDistinct]
      simp only [List.mem_cons]
      tauto

lemma extractFailedDate_eq_some {l ds : String} :
    extractFailedDate l = some ds ↔
      hasFailureMarker l = true ∧ isValidYMD (lineDateText l) = true
        ∧ lineDateText l = ds := by
  unfold extractFailedDate
  by_cases hm : hasFailureMarker l
  · rw [if_pos hm]
    by_cases hv : isValidYMD (lineDateText l)
    · rw [if_pos hv]
      constructor
      · intro h
        injection h with h
        exact ⟨hm, hv, h⟩
      · rintro ⟨_, _, rfl⟩
        rfl
    · rw [if_neg hv]
      constructor
      · intro h
        cases h
      · rintro ⟨_, hv', _⟩
        exact absurd hv' hv
  · rw [if_neg hm]
    constructor
    · intro h
      cases h
    · rintro ⟨hm', _, _⟩
      exact absurd hm' hm

/-- Claim C9 counterexample: a ledger line recording the positive count
10 contains "0 games scraped" as a raw substring, so find_failed_days
returns its date even though every line for that date records a positive
game count. -/
theorem claim_c9_counterexample :
    find_failed_days ["2021-11-09: 10 games scraped"] = ["2021-11-09"]
    ∧ strContains "2021-11-09: 10 games scraped" "0 games scraped"
        = true := by
  refine ⟨by decide, by decide⟩

/-- Claim C9 (amended): find_failed_days returns exactly the strictly
sorted, duplicate-free list of dates ds such that some ledger line
carries a failure marker as a raw substring, its before-the-colon text
stripped of brackets and spaces is ds, and ds passes the strptime
"%Y-%m-%d" check.  Because marker matching is raw substring containment,
a line recording a positive game count ending in the digit 0 (such as
"10 games scraped") also matches the "0 games scraped" marker and its
date is returned. -/
theorem find_failed_days_characterization (lines : List String) :
    (find_failed_days lines).Pairwise (fun a b => strLtB a b = true)
    ∧ (find_failed_days lines).Nodup
    ∧ ∀ ds, ds ∈ find_failed_days lines ↔
        ∃ l ∈ lines, hasFailureMarker l = true
          ∧ isValidYMD (lineDateText l) = true ∧ lineDateText l = ds := by
  obtain ⟨hp, hmem⟩ :=
    sortedSet_fold_props (lines.filterMap extractFailedDate) [] (by simp)
  refine ⟨hp, ?_, ?_⟩
  · refine hp.imp ?_
    intro a b hab heq
    subst heq
    rw [strLtB_irrefl] at hab
    cases hab
  · intro ds
    unfold find_failed_days sortedSet
    rw [hmem ds]
    simp only [List.not_mem_nil, false_or, List.mem_filterMap]
    constructor
    · rintro ⟨l, hl, hex⟩
      rw [extractFailedDate_eq_some] at hex
      exact ⟨l, hl, hex⟩
    · rintro ⟨l, hl, h1, h2, h3⟩
      exact ⟨l, hl, extractFailedDate_eq_some.mpr ⟨h1, h2, h3⟩⟩

/-! ## Claim C10 -/

/-- Claim C10: get_existing_dates returns the empty set for a missing
output file and for a file pd.read_csv fails on, and run_auto_scrape
over such a store degenerates to the skip-free loop that re-fetches
every day in the range. -/
theorem get_existing_dates_total_fallback :
    get_existing_dates StoreFile.missing = []
    ∧ (∀ blob, get_existing_dates (StoreFile.corrupt blob) = [])
    ∧ (∀ (w : World) (days : List Date) (ledger : List String),
        run_auto_scrape w days StoreFile.missing ledger
          = days.foldl (fun st d =>
              (append_to_master st.1
                 (scrape_day (w.board d) w.games d).rows,
               st.2 ++ (scrape_day (w.board d) w.games d).log))
              (StoreFile.missing, ledger))
    ∧ (∀ (w : World) (days : List Date) (blob : List Row)
         (ledger : List String),
        run_auto_scrape w days (StoreFile.corrupt blob) ledger
          = days.foldl (fun st d =>
              (append_to_master st.1
                 (scrape_day (w.board d) w.games d).rows,
               st.2 ++ (scrape_day (w.board d) w.games d).log))
              (StoreFile.corrupt blob, ledger)) := by
  have hstep : ∀ (w : World),
      runStep w ([] : List String) = (fun st d =>
        (append_to_master st.1 (scrape_day (w.board d) w.games d).rows,
         st.2 ++ (scrape_day (w.board d) w.games d).log)) := by
    intro w
    funext st d
    unfold runStep
    rw [if_neg (List.not_mem_nil _)]
  refine ⟨rfl, fun blob => rfl, ?_, ?_⟩
  · intro w days ledger
    unfold run_auto_scrape
    rw [show get_existing_dates StoreFile.missing = [] from rfl, hstep w]
  · intro w days blob ledger
    unfold run_auto_scrape
    rw [show get_existing_dates (StoreFile.corrupt blob) = [] from rfl,
      hstep w]

end CbbScores
